import Mathlib

/-!
Verification development for the google-maps-scraper-apify repository.

The JavaScript source is shallowly embedded: pure string-processing functions
become Lean functions on `String` and `List Char`; the stateful extraction,
scrolling, retry and batching loops become explicit recursive functions over
abstract observation sequences (the values that the DOM queries of the source
return).  JavaScript numbers are modelled by `Nat`, `Int` and `Rat` with
explicit 32-bit wrapping where the source relies on it.
-/

/-! ### JavaScript character classes and basic string helpers -/

/-- The whitespace class of JavaScript regular expressions and `trim`
(space, tab, LF, VT, FF, CR, NBSP, Ogham space, the U+2000 block, line and
paragraph separators, narrow NBSP, math space, ideographic space, BOM). -/
def isJsWs (c : Char) : Bool :=
  c = ' ' || c = '\t' || c = '\n' || c = '\r' || c.toNat = 11 || c.toNat = 12 ||
  c.toNat = 0xa0 || c.toNat = 0x1680 || (0x2000 ≤ c.toNat && c.toNat ≤ 0x200a) ||
  c.toNat = 0x2028 || c.toNat = 0x2029 || c.toNat = 0x202f || c.toNat = 0x205f ||
  c.toNat = 0x3000 || c.toNat = 0xfeff

/-- `String.prototype.trim`: drop JS whitespace from both ends. -/
def listTrim (l : List Char) : List Char :=
  ((l.dropWhile isJsWs).reverse.dropWhile isJsWs).reverse

/-- ASCII lowercasing, the fragment of `toLowerCase` visible to the
ASCII-only patterns of the source. -/
def lowerAscii (c : Char) : Char :=
  if 'A' ≤ c && c ≤ 'Z' then Char.ofNat (c.toNat + 32) else c

/-- Index of the first occurrence of `pat` in `l` (JS `indexOf`). -/
def findSubIdx (pat : List Char) : List Char → Option Nat
  | [] => if pat.isEmpty then some 0 else none
  | c :: rest =>
    if pat.isPrefixOf (c :: rest) then some 0
    else (findSubIdx pat rest).map (· + 1)

/-- JS `String.prototype.includes` on character lists. -/
def containsSubL (pat l : List Char) : Bool := (findSubIdx pat l).isSome

/-- JS `String.prototype.includes`. -/
def containsSub (pat s : String) : Bool := containsSubL pat.toList s.toList

/-- JS `str.split(c)[0]`: the characters before the first occurrence. -/
def stripQuery (s : String) : String := ⟨s.toList.takeWhile (fun c => c ≠ '?')⟩

/-- Collapse every run of JS whitespace into a single space
(`replace(/\s+/g, ' ')`): `prevWs` records whether the previous character
belonged to a whitespace run already emitted as one space. -/
def collapseWsAux (prevWs : Bool) : List Char → List Char
  | [] => []
  | c :: rest =>
    if isJsWs c then
      if prevWs then collapseWsAux true rest
      else ' ' :: collapseWsAux true rest
    else c :: collapseWsAux false rest

/-- `replace(/\s+/g, ' ')`. -/
def collapseWs (l : List Char) : List Char := collapseWsAux false l

/-- Value of a list of ASCII decimal digits. -/
def digitsToNat (ds : List Char) : Nat :=
  ds.foldl (fun a c => a * 10 + (c.toNat - 48)) 0

/-! ### dataCleaners.js: cleanUnicodeText -/

/-- The Unicode ranges removed by `cleanUnicodeText` (control characters,
private use area, specials, zero-width characters, BOM). -/
def isRemovedUnicode (c : Char) : Bool :=
  c.toNat ≤ 0x1f || (0x7f ≤ c.toNat && c.toNat ≤ 0x9f) ||
  (0xe000 ≤ c.toNat && c.toNat ≤ 0xf8ff) || (0xfff0 ≤ c.toNat && c.toNat ≤ 0xffff) ||
  (0x200b ≤ c.toNat && c.toNat ≤ 0x200d) || c.toNat = 0xfeff

/-- `cleanUnicodeText` on character lists: remove the special ranges, trim,
collapse whitespace runs. -/
def cleanUnicodeTextL (l : List Char) : List Char :=
  collapseWs (listTrim (l.filter (fun c => !isRemovedUnicode c)))

/-- dataCleaners.js `cleanUnicodeText`. -/
def cleanUnicodeText (text : String) : String :=
  if text = "" then "" else ⟨cleanUnicodeTextL text.toList⟩

/-! ### dataCleaners.js: validateAddress (= normalizeAddress alias) -/

/-- Delete from the first (ASCII-case-insensitive) occurrence of `marker` to
the end of the string: the i-flagged replace of the marker and its tail by the empty string.  After `cleanUnicodeText`
the string contains no line terminators, so the `.*$` tail always reaches the
end of the string. -/
def dropFromMarkerCI (marker l : List Char) : List Char :=
  match findSubIdx (marker.map lowerAscii) (l.map lowerAscii) with
  | some i => l.take i
  | none => l

/-- Match of `/〒(\d{3})-?(\d{4})/` starting at the head of `l`: returns the
normalized replacement `〒ddd-dddd` and the characters after the match. -/
def jpMatchAt (l : List Char) : Option (List Char × List Char) :=
  match l with
  | '〒' :: r =>
    let d3 := r.take 3
    if d3.length = 3 && d3.all Char.isDigit then
      let r2 := r.drop 3
      let r3 := match r2 with
        | '-' :: t => t
        | _ => r2
      let d4 := r3.take 4
      if d4.length = 4 && d4.all Char.isDigit then
        some ('〒' :: (d3 ++ '-' :: d4), r3.drop 4)
      else none
    else none
  | _ => none

/-- Replace the first `/〒(\d{3})-?(\d{4})/` match by `〒$1-$2`. -/
def jpPostalAux : List Char → List Char
  | [] => []
  | c :: r =>
    match jpMatchAt (c :: r) with
    | some (rep, rest) => rep ++ rest
    | none => c :: jpPostalAux r

/-- The word-character class `\w` of JS regular expressions. -/
def isWordChar (c : Char) : Bool := c.isAlpha || c.isDigit || c = '_'

/-- Is position 0 of `l` (whose predecessor character is `prev`) the start of
a `\b(\d{5})\b` match? -/
def krPostalAt (prev : Option Char) (l : List Char) : Bool :=
  (match prev with
   | none => true
   | some p => !isWordChar p) &&
  (let d := l.take 5
   d.length = 5 && d.all Char.isDigit &&
   (match l.drop 5 with
    | [] => true
    | c :: _ => !isWordChar c))

/-- First capture of `/\b(\d{5})\b/`. -/
def krFindPostalAux (prev : Option Char) : List Char → Option (List Char)
  | [] => none
  | c :: r =>
    if krPostalAt prev (c :: r) then some ((c :: r).take 5)
    else krFindPostalAux (some c) r

/-- Remove the first occurrence of `pat` (JS replace by the empty string with
a string pattern). -/
def removeFirstSub (pat l : List Char) : List Char :=
  match findSubIdx pat l with
  | some i => l.take i ++ l.drop (i + pat.length)
  | none => l

/-- Replace the first `/,\s*,/` match by a single comma. -/
def commaFixAux : List Char → List Char
  | [] => []
  | c :: r =>
    if c = ',' then
      match r.dropWhile isJsWs with
      | ',' :: t => ',' :: t
      | _ => c :: commaFixAux r
    else c :: commaFixAux r

/-- The Korean-postal-code relocation branch of `validateAddress`.  The JS
comparison `postalIndex > totalLength * 0.8` is modelled exactly over the
rationals as `5 * postalIndex > 4 * totalLength` (the float product differs
from the rational one by strictly less than one index position). -/
def krPostalFix (l : List Char) : List Char :=
  match krFindPostalAux none l with
  | none => l
  | some postal =>
    match findSubIdx postal l with
    | none => l
    | some postalIndex =>
      if 4 * l.length < 5 * postalIndex && !(postal.isPrefixOf l) then
        postal ++ ' ' :: listTrim (commaFixAux (removeFirstSub postal l))
      else l

/-- dataCleaners.js `validateAddress`: Unicode cleaning, minimum length 5,
removal of trailing business-hours text, trim, then the Japan and Korea
postal-code fixups.  String length is the number of characters (the UTF-16
unit count of the source coincides with it on the Basic Multilingual Plane). -/
def validateAddress (address : String) : String :=
  if address = "" then ""
  else
    let c0 := cleanUnicodeTextL address.toList
    if c0.length < 5 then ""
    else
      let c1 := dropFromMarkerCI "營業中".toList c0
      let c2 := dropFromMarkerCI "已打烊".toList c1
      let c3 := dropFromMarkerCI "Opens".toList c2
      let c4 := dropFromMarkerCI "Closes".toList c3
      let c5 := dropFromMarkerCI "⋅".toList c4
      let c6 := listTrim c5
      let c7 := if containsSubL "Japan".toList c6 || containsSubL "日本".toList c6 then
          jpPostalAux c6
        else c6
      let c8 := if containsSubL "Korea".toList c7 || containsSubL "대한민국".toList c7 ||
          containsSubL "South Korea".toList c7 then
          krPostalFix c7
        else c7
      ⟨c8⟩

/-- dataCleaners.js exports `normalizeAddress` as an alias of
`validateAddress`. -/
def normalizeAddress : String → String := validateAddress

/-! ### dataCleaners.js: cleanAddress -/

/-- Tail of the matcher for `^[\d.]+\s*\(D\)$` where `D` is `[0-9,]+` when
`allowComma` is true (the `cleanAddress` guard) and `\d+` otherwise (the
pattern of the specification): the digits and the closing parenthesis at the
end of the string.  Greedy matching with these character classes is
deterministic, so maximal-munch scanning is exact. -/
def parenDigitsTail (allowComma : Bool) (r3 : List Char) : Bool :=
  let d := r3.takeWhile (fun c => c.isDigit || (allowComma && c = ','))
  !d.isEmpty && decide (r3.drop d.length = [')'])

/-- The `^[\d.]+\s*\(` head of the pattern followed by `parenDigitsTail` on
the characters after the opening parenthesis. -/
def matchDigitsParen (allowComma : Bool) (cs : List Char) : Bool :=
  let p1 := cs.takeWhile (fun c => c.isDigit || c = '.')
  let r2 := (cs.drop p1.length).dropWhile isJsWs
  !p1.isEmpty && decide (r2.head? = some '(') && parenDigitsTail allowComma r2.tail

/-- The rating-shaped pattern `^[\d.]+\s*\(\d+\)$` named by the
specification. -/
def specRatingShaped (s : String) : Bool := matchDigitsParen false s.toList

/-- dataCleaners.js `cleanAddress`: empty the rating-shaped strings matching
`^[\d.]+\s*\([0-9,]+\)$`, else trim and delete every whitespace run
(the replace of every whitespace run by the empty string). -/
def cleanAddress (address : String) : String :=
  if address = "" then ""
  else if matchDigitsParen true address.toList then ""
  else ⟨(listTrim address.toList).filter (fun c => !isJsWs c)⟩

/-! ### dataCleaners.js: cleanWebsiteUrl -/

/-- The scheme test `/^https?:\/\//` (case-sensitive). -/
def hasHttpScheme (l : List Char) : Bool :=
  "http://".toList.isPrefixOf l || "https://".toList.isPrefixOf l

/-- The scheme-prepending step of `cleanWebsiteUrl` (with the facebook/www
special cases of the source). -/
def cleanWebsiteUrlCore (t : List Char) : List Char :=
  if hasHttpScheme t then t
  else if containsSubL "facebook.com".toList t then "https://www.".toList ++ t
  else if "www.".toList.isPrefixOf t then "https://".toList ++ t
  else "https://".toList ++ t

/-- The UTM-parameter removal of `cleanWebsiteUrl`:
`if (cleaned.includes('?')) cleaned = cleaned.split('?')[0]`. -/
def dropQuery (c1 : List Char) : List Char :=
  if '?' ∈ c1 then c1.takeWhile (fun c => c ≠ '?') else c1

/-- dataCleaners.js `cleanWebsiteUrl`: trim, prepend a scheme when none is
present, then drop everything from the first `?` on. -/
def cleanWebsiteUrl (url : String) : String :=
  if url = "" then "" else ⟨dropQuery (cleanWebsiteUrlCore (listTrim url.toList))⟩

/-! ### dataCleaners.js: normalizeRating -/

/-- JS `Math.round`: round half towards positive infinity. -/
def jsRound (x : ℚ) : ℤ := ⌊x + 1 / 2⌋

/-- dataCleaners.js `normalizeRating`.  The argument is the `parseFloat`
value of the input: `none` stands for an absent input and for `NaN`
(both return 0 in the source), `some q` for a parsed number. -/
def normalizeRating : Option ℚ → ℚ
  | none => 0
  | some num => (jsRound (max 0 (min 5 num) * 10) : ℚ) / 10

/-! ### dataCleaners.js: normalizeReviewCount -/

/-- Leading decimal-digit run as a number (`none` when there is none):
the core of JS `parseInt(s, 10)` after sign processing. -/
def parseDigits (l : List Char) : Option Nat :=
  let ds := l.takeWhile Char.isDigit
  if ds.isEmpty then none else some (digitsToNat ds)

/-- Optional sign then digits, as in `parseInt`. -/
def parseIntSigned (l : List Char) : Option Int :=
  match l with
  | [] => none
  | c :: r =>
    if c = '-' then (parseDigits r).map (fun n => -(Int.ofNat n))
    else if c = '+' then (parseDigits r).map Int.ofNat
    else (parseDigits (c :: r)).map Int.ofNat

/-- JS `parseInt(s, 10)`: skip leading whitespace, optional sign, leading
digits; `none` for `NaN`. -/
def parseIntJs (s : String) : Option Int :=
  parseIntSigned (s.toList.dropWhile isJsWs)

/-- The character-removal predicate of the comma and parenthesis removal
replace of the source: keep `c`
when it is not a comma or parenthesis. -/
def reviewCountKeep (c : Char) : Bool := c ≠ ',' && c ≠ '(' && c ≠ ')'

/-- dataCleaners.js `normalizeReviewCount` on the string form of the input
(`String(count)`); absent inputs (the falsy early return of the source)
are the empty string. -/
def normalizeReviewCount (count : String) : Int :=
  if count = "" then 0
  else
    match parseIntJs ⟨count.toList.filter reviewCountKeep⟩ with
    | none => 0
    | some n => n

/-! ### BatchEmailExtractor.js: email validation and filtering -/

/-- The local-part class `[a-zA-Z0-9._%+-]` of the email pattern. -/
def emailLocalChar (c : Char) : Bool :=
  c.isAlpha || c.isDigit || c = '.' || c = '_' || c = '%' || c = '+' || c = '-'

/-- The domain class `[a-zA-Z0-9.-]` of the email pattern. -/
def emailDomainChar (c : Char) : Bool :=
  c.isAlpha || c.isDigit || c = '.' || c = '-'

/-- The test `/^[a-zA-Z0-9._%+-]+@[a-zA-Z0-9.-]+\.[a-zA-Z]{2,}$/`.
A string matches exactly when: the characters before the first `@` form a
non-empty run of local characters, an `@` follows, the remainder is made of
domain characters, and its segment after the last dot is a purely alphabetic
run of length at least two preceded by a non-empty domain part. -/
def emailRegexTest (s : String) : Bool :=
  let cs := s.toList
  let lp := cs.takeWhile (fun c => c ≠ '@')
  match cs.drop lp.length with
  | '@' :: dom =>
    let revd := dom.reverse
    let tldRev := revd.takeWhile (fun c => c ≠ '.')
    !lp.isEmpty && lp.all emailLocalChar && dom.all emailDomainChar &&
    (match revd.drop tldRev.length with
     | '.' :: drest => !drest.isEmpty && 2 ≤ tldRev.length && tldRev.all Char.isAlpha
     | _ => false)
  | _ => false

/-- The blacklist of `filterValidEmails`. -/
def emailBlacklist : List String :=
  ["example.com", "sentry.io", "wixpress.com", "noreply", "no-reply"]

/-- ASCII lowercasing of a string (`toLowerCase` restricted to the ASCII
patterns the blacklist consists of). -/
def toLowerStr (s : String) : String := ⟨s.toList.map lowerAscii⟩

/-- `blacklist.some(blocked => lower.includes(blocked))`. -/
def isBlacklistedEmail (email : String) : Bool :=
  emailBlacklist.any (fun b => containsSub b (toLowerStr email))

/-- BatchEmailExtractor.js `filterValidEmails`. -/
def filterValidEmails (emails : List String) : List String :=
  emails.filter (fun email => !isBlacklistedEmail email && emailRegexTest email)

/-! ### GoogleMapsScraper.retryWithBackoff -/

/-- The backoff delay of attempt `i`:
`Math.min(1000 * Math.pow(2, i), 10000)`. -/
def backoffDelay (i : Nat) : Nat := min (1000 * 2 ^ i) 10000

/-- The delays slept by the retry loop, starting at attempt `i` with `fuel`
attempts left: an attempt that succeeds stops the loop, the last allowed
attempt rethrows without sleeping, every other failing attempt sleeps
`backoffDelay` of its index.  `fails j` records whether the wrapped
operation throws at attempt `j`. -/
def retryDelaysAux (fails : Nat → Bool) : Nat → Nat → List Nat
  | _, 0 => []
  | i, fuel + 1 =>
    if fails i then
      if fuel = 0 then [] else backoffDelay i :: retryDelaysAux fails (i + 1) fuel
    else []

/-- The delay trace of `retryWithBackoff(fn, retries)`. -/
def retryDelays (fails : Nat → Bool) (retries : Nat) : List Nat :=
  retryDelaysAux fails 0 retries

/-! ### GoogleMapsScraper.performScrolling -/

/-- One run of the scroll loop of `performScrolling`, returning the number of
iterations executed.  `counts i` is the rendered-listing count that the page
reports at iteration `i` (the DOM query is abstracted as this observation
sequence); `prev` and `noChange` are the `previousCount` and `noChangeCount`
variables of the source.  An iteration increments the stall counter when the
count is unchanged and breaks at 8 consecutive stalls; otherwise it resets
the counter; it breaks once the count reaches 200. -/
def scrollAux (counts : Nat → Nat) : Nat → Nat → Nat → Nat → Nat
  | 0, i, _, _ => i
  | fuel + 1, i, prev, noChange =>
    let c := counts i
    if c = prev then
      if 8 ≤ noChange + 1 then i + 1
      else if 200 ≤ c then i + 1
      else scrollAux counts fuel (i + 1) c (noChange + 1)
    else
      if 200 ≤ c then i + 1
      else scrollAux counts fuel (i + 1) c 0

/-- Number of loop iterations `performScrolling` executes for the
observation sequence `counts` with configuration `maxScrolls`. -/
def scrollIterations (counts : Nat → Nat) (maxScrolls : Nat) : Nat :=
  scrollAux counts maxScrolls 0 0 0

/-! ### Numeric helpers of the listing extractor -/

/-- JS `parseFloat`: skip leading whitespace, optional sign, digits with an
optional fraction and exponent, longest valid prefix; `none` for `NaN`
(the `Infinity` literals, never produced by the numeric captures of the
source, are not modelled). -/
def parseFloatJs (s : String) : Option ℚ :=
  let l := s.toList.dropWhile isJsWs
  let sgn : ℚ × List Char :=
    match l with
    | '-' :: r => (-1, r)
    | '+' :: r => (1, r)
    | _ => (1, l)
  let ip := sgn.2.takeWhile Char.isDigit
  let l2 := sgn.2.drop ip.length
  let fp : List Char × List Char :=
    match l2 with
    | '.' :: r => (r.takeWhile Char.isDigit, r.dropWhile Char.isDigit)
    | _ => ([], l2)
  if ip.isEmpty && fp.1.isEmpty then none
  else
    let base : ℚ := (digitsToNat ip : ℚ) + (digitsToNat fp.1 : ℚ) / (10 : ℚ) ^ fp.1.length
    let e : ℤ :=
      match fp.2 with
      | 'e' :: r | 'E' :: r =>
        let es : ℤ × List Char :=
          match r with
          | '-' :: t => (-1, t)
          | '+' :: t => (1, t)
          | _ => (1, r)
        let ed := es.2.takeWhile Char.isDigit
        if ed.isEmpty then 0 else es.1 * (digitsToNat ed : ℤ)
      | _ => 0
    some (sgn.1 * base * (10 : ℚ) ^ e)

/-- 32-bit signed wrap, the effect of the JS `|`/`&`/`<<` coercions. -/
def int32wrap (x : ℤ) : ℤ := (x + 2 ^ 31) % 2 ^ 32 - 2 ^ 31

/-- One step of the dedup hash of the extractor:
`hash = ((hash << 5) - hash) + code; hash = hash & hash`. -/
def jsHashStep (h : ℤ) (code : Nat) : ℤ :=
  int32wrap (int32wrap (h * 32) - h + code)

/-- The name-and-coordinates hash of the extractor fallback.  Characters
stand for the UTF-16 units of the source (they coincide on the Basic
Multilingual Plane). -/
def jsHash (l : List Char) : ℤ := l.foldl (fun h c => jsHashStep h c.toNat) 0

/-- Digit of `Number.prototype.toString(36)`. -/
def base36digit (n : Nat) : Char :=
  if n < 10 then Char.ofNat (48 + n) else Char.ofNat (87 + n)

/-- Base-36 digits of `n`, most significant first (`fuel`-bounded). -/
def toBase36Aux : Nat → Nat → List Char
  | 0, _ => []
  | fuel + 1, n =>
    if n < 36 then [base36digit n]
    else toBase36Aux fuel (n / 36) ++ [base36digit (n % 36)]

/-- JS `n.toString(36)` for a non-negative integer. -/
def toBase36 (n : Nat) : String := ⟨toBase36Aux (n + 1) n⟩

/-- First maximal run of characters satisfying `p`
(the JS `match` of a one-class pattern such as `/[\d.]+/`). -/
def firstRun (p : Char → Bool) : List Char → Option (List Char)
  | [] => none
  | c :: r => if p c then some ((c :: r).takeWhile p) else firstRun p r

/-- First capture of `/\((\d+[,\d]*)\)/`: an opening parenthesis, a digit,
a run of digits and commas, a closing parenthesis. -/
def parenNumCapture : List Char → Option (List Char)
  | [] => none
  | '(' :: r =>
    (match r with
     | d :: _ =>
       if d.isDigit then
         let run := r.takeWhile (fun c => c.isDigit || c = ',')
         match r.drop run.length with
         | ')' :: _ => some run
         | _ => parenNumCapture r
       else parenNumCapture r
     | [] => none)
  | _ :: r => parenNumCapture r

/-! ### Phone pattern of the listing extractor:
`/(\+?1?\s*\(?\d{3}\)?[\s.-]?\d{3}[\s.-]?\d{4})/`.  Every optional token
except the `1?` is decided deterministically (the following token can never
consume the same character); the `1?` is tried greedily first. -/

/-- Consume exactly `n` decimal digits. -/
def takeDigits : Nat → List Char → Option (List Char)
  | 0, l => some l
  | n + 1, c :: r => if c.isDigit then takeDigits n r else none
  | _ + 1, [] => none

/-- Consume `c` when present, returning consumed length and remainder. -/
def optChar (c : Char) (l : List Char) : Nat × List Char :=
  match l with
  | x :: r => if x = c then (1, r) else (0, l)
  | [] => (0, l)

/-- Consume one `[\s.-]` separator when present. -/
def optSep (l : List Char) : Nat × List Char :=
  match l with
  | x :: r => if isJsWs x || x = '.' || x = '-' then (1, r) else (0, l)
  | [] => (0, l)

/-- Match `\(?\d{3}\)?[\s.-]?\d{3}[\s.-]?\d{4}` at the head of `l`,
returning the consumed length. -/
def phoneCore (l : List Char) : Option Nat :=
  let a := optChar '(' l
  match takeDigits 3 a.2 with
  | none => none
  | some l2 =>
    let b := optChar ')' l2
    let c := optSep b.2
    match takeDigits 3 c.2 with
    | none => none
    | some l5 =>
      let d := optSep l5
      match takeDigits 4 d.2 with
      | none => none
      | some _ => some (a.1 + 3 + b.1 + c.1 + d.1 + 3 + 4)

/-- Match `\+?1?\s*` then `phoneCore` at the head of `l`, preferring to
consume the optional `1` as the greedy engine does. -/
def phoneFrom (l : List Char) : Option Nat :=
  let p := optChar '+' l
  let attempt1 : Option Nat :=
    match p.2 with
    | '1' :: r =>
      let w := r.takeWhile isJsWs
      (phoneCore (r.drop w.length)).map (fun n => p.1 + 1 + w.length + n)
    | _ => none
  match attempt1 with
  | some n => some n
  | none =>
    let w := p.2.takeWhile isJsWs
    (phoneCore (p.2.drop w.length)).map (fun n => p.1 + w.length + n)

/-- Leftmost phone match in the text. -/
def phoneScan : List Char → Option (List Char)
  | [] => none
  | c :: r =>
    match phoneFrom (c :: r) with
    | some n => some ((c :: r).take n)
    | none => phoneScan r

/-- `container.textContent.match(phonePattern)` followed by `.trim()`,
with the empty string when there is no match. -/
def extractPhone (containerText : String) : String :=
  match phoneScan containerText.toList with
  | some m => ⟨listTrim m⟩
  | none => ""

/-! ### GoogleMapsScraper.extractBusinesses

One rendered listing link is modelled by the values its DOM queries and
href-regex matches return.  The capture fields carry the capture group of
the corresponding pattern when the href matches it (`none` otherwise); the
`addressR`/`businessTypeR` fields abstract the W4Efsd span-walking
heuristics of the source as the address and business type they resolve to
(no claim depends on their computation).  `containerName` is the trimmed
business name resolved from the container, empty when none is found. -/

structure Link where
  /-- Capture of `/\/place\/[^/]+\/([^/?]+)/` on the href. -/
  placeUrlCapture : Option String
  /-- Capture of `/[!&]1s(ChI[^!&?]+)/` on the href. -/
  dataParamCapture : Option String
  /-- Capture of `/!19s(ChI[^!&?]+)/` on the href. -/
  pid19Capture : Option String
  /-- First truthy value of the `data-pid`, `data-place-id`, `data-value`
  attributes of the link element. -/
  dataPid : Option String
  /-- Same attributes on the parent element (when there is a parent). -/
  parentDataPid : Option String
  /-- Capture of `/[!&]1s(0x[0-9a-f]+:0x[0-9a-f]+)/` on the href. -/
  hexCapture : Option String
  /-- Captures of `/!3d([^!]+)!4d([^!]+)/` on the href. -/
  coordCapture : Option (String × String)
  /-- Trimmed text of the first `div` inside the link, empty when missing. -/
  linkName : String
  /-- Whether the container-selector chain finds an enclosing container. -/
  hasContainer : Bool
  /-- Trimmed business name resolved from the container, empty when missing. -/
  containerName : String
  /-- Rating text: aria-label or text of the rating element, empty if none. -/
  ratingText : String
  /-- Flattened text content of the container. -/
  containerText : String
  /-- Address resolved by the span heuristics. -/
  addressR : String
  /-- Business type resolved by the span heuristics. -/
  businessTypeR : String
  /-- The href itself. -/
  href : String
deriving Repr

/-- The output record of the extractor.  `rating` and the coordinates are
`parseFloat` values (`none` both for the JS `null` and for `NaN`). -/
structure Business where
  name : String
  placeId : String
  latitude : Option ℚ
  longitude : Option ℚ
  rating : Option ℚ
  reviews : ℤ
  address : String
  businessType : String
  phone : String
  url : String
  website : String := ""
  email : Option String := none
  emails : List String := []
deriving Repr, DecidableEq

/-- The ordered identity-resolution chain of `extractBusinesses` for one
link: standard place URL, `!1s`/`!19s` data parameters, element and parent
data attributes (each required to start with `ChI`), hex-encoded id,
name-and-coordinates hash, and the run-unique sequence fallback
(`now` is the `Date.now()` of the run).  Resolved ids are stripped of any
query-string tail (`split('?')[0]`). -/
def resolvePlaceId (now idx : Nat) (l : Link) : String :=
  let m1 : Option String :=
    match l.placeUrlCapture with
    | some c => if c.startsWith "ChI" then some (stripQuery c) else none
    | none => none
  match m1 with
  | some p => p
  | none =>
    match l.dataParamCapture with
    | some c => stripQuery c
    | none =>
      match l.pid19Capture with
      | some c => stripQuery c
      | none =>
        let m4 : Option String :=
          match l.dataPid with
          | some d => if d.startsWith "ChI" then some (stripQuery d) else none
          | none => none
        let m4b : Option String :=
          match m4 with
          | some p => some p
          | none =>
            match l.parentDataPid with
            | some d => if d.startsWith "ChI" then some (stripQuery d) else none
            | none => none
        match m4b with
        | some p => p
        | none =>
          match l.hexCapture with
          | some h => "hex_" ++ h
          | none =>
            match l.coordCapture with
            | some lc =>
              if l.linkName ≠ "" then
                "generated_" ++
                  toBase36 (jsHash (l.linkName ++ "_" ++ lc.1 ++ "_" ++ lc.2).toList).natAbs
              else "fallback_" ++ toString idx ++ "_" ++ toString now
            | none => "fallback_" ++ toString idx ++ "_" ++ toString now

/-- The record pushed for a link that passed the dedup, container and name
checks. -/
def linkBusiness (l : Link) (pid : String) : Business :=
  { name := l.containerName
    placeId := pid
    latitude := match l.coordCapture with
      | some lc => parseFloatJs lc.1
      | none => none
    longitude := match l.coordCapture with
      | some lc => parseFloatJs lc.2
      | none => none
    rating := parseFloatJs ⟨((firstRun (fun c => c.isDigit || c = '.')
      l.ratingText.toList).getD "0".toList)⟩
    reviews := match parenNumCapture l.containerText.toList with
      | some cap => (digitsToNat (cap.filter (fun c => c ≠ ',')) : ℤ)
      | none => 0
    address := l.addressR
    businessType := l.businessTypeR
    phone := extractPhone l.containerText
    url := l.href }

/-- The `links.forEach` loop of the page-evaluate step of
`extractBusinesses`: per link, resolve and strip the place id, silently
skip ids already in `seen`, record the id as seen, then skip links without
a container or without a business name, otherwise push the record. -/
def extractAux (now : Nat) : List Link → Nat → List String → List Business
  | [], _, _ => []
  | l :: rest, idx, seen =>
    let pid := stripQuery (resolvePlaceId now idx l)
    if pid ∈ seen then extractAux now rest (idx + 1) seen
    else
      if !l.hasContainer then extractAux now rest (idx + 1) (pid :: seen)
      else if l.containerName = "" then extractAux now rest (idx + 1) (pid :: seen)
      else linkBusiness l pid :: extractAux now rest (idx + 1) (pid :: seen)

/-- The full deduplicated extraction pass (the `businesses` array returned
by `page.evaluate`), independent of the result cap. -/
def extractBusinessesRaw (now : Nat) (links : List Link) : List Business :=
  extractAux now links 0 []

/-- GoogleMapsScraper `extractBusinesses`: the full extraction pass followed
by `businesses.slice(0, this.config.maxResults)`. -/
def extractBusinesses (now maxResults : Nat) (links : List Link) : List Business :=
  (extractBusinessesRaw now links).take maxResults

/-! ### GoogleMapsScraper.searchMultipleQueries -/

/-- The per-sub-search dedup merge of `searchMultipleQueries`: businesses
whose place id is in `seenPlaceIds` are skipped, the others are appended to
`allResults` and their id recorded. -/
def mergeDedup : List Business → List String → List Business → List String × List Business
  | [], seen, acc => (seen, acc)
  | b :: bs, seen, acc =>
    if b.placeId ∈ seen then mergeDedup bs seen acc
    else mergeDedup bs (b.placeId :: seen) (acc ++ [b])

/-- The region loop of `searchMultipleQueries` over the result lists of the
successful sub-searches (a failed sub-search is logged and contributes
nothing): merge each sub-result, stop once the merged count reaches
`maxResults`. -/
def smqAux (maxResults : Nat) : List (List Business) → List String → List Business → List Business
  | [], _, acc => acc
  | rs :: rest, seen, acc =>
    let sa := mergeDedup rs seen acc
    if maxResults ≤ sa.2.length then sa.2
    else smqAux maxResults rest sa.1 sa.2

/-- GoogleMapsScraper `searchMultipleQueries`: the merged, deduplicated
results of the sub-searches, finally truncated by
`allResults.slice(0, this.config.maxResults)`. -/
def searchMultipleQueries (maxResults : Nat) (subResults : List (List Business)) : List Business :=
  (smqAux maxResults subResults [] []).take maxResults

/-! ### BatchEmailExtractor.extractEmailsBatch -/

/-- `extractFromWebsite` with the page fetch abstracted: `siteEmails url`
is the deduplicated email list that the page scan returns for `url`, or
`Except.error ()` when navigation or evaluation throws.  The collected
emails are then passed through `filterValidEmails`. -/
def extractFromWebsite (siteEmails : String → Except Unit (List String)) (url : String) :
    Except Unit (List String) :=
  (siteEmails url).map filterValidEmails

/-- `emails[0] || null`: the JS falsy default also maps an empty first
email to `null`. -/
def jsHeadEmail (emails : List String) : Option String :=
  match emails with
  | [] => none
  | e :: _ => if e = "" then none else some e

/-- The per-business arm of the batch map: businesses without a website or
with a `google.com` platform website get `email: null, emails: []`; a throw
of the fetch is caught and yields the same; otherwise the filtered emails
are attached.  The spread `{ ...business }` preserves every other field. -/
def processBusiness (siteEmails : String → Except Unit (List String)) (b : Business) :
    Business :=
  if b.website = "" || containsSub "google.com" b.website then
    { b with email := none, emails := [] }
  else
    match extractFromWebsite siteEmails b.website with
    | Except.ok emails => { b with emails := emails, email := jsHeadEmail emails }
    | Except.error _ => { b with email := none, emails := [] }

/-- `batchSize: config.batchSize || 5`. -/
def effectiveBatchSize (configBatchSize : Nat) : Nat :=
  if configBatchSize = 0 then 5 else configBatchSize

/-- The batch loop of `extractEmailsBatch`: process `bsPred + 1` businesses
per batch (`Promise.all` keeps the order of the batch) and append the batch
results to the accumulated output. -/
def chunkProcess (p : Business → Business) (bsPred : Nat) : List Business → List Business
  | [] => []
  | b :: rest =>
    ((b :: rest).take (bsPred + 1)).map p ++ chunkProcess p bsPred ((b :: rest).drop (bsPred + 1))
termination_by l => l.length
decreasing_by
  simp only [List.drop_succ_cons, List.length_cons, List.length_drop]
  exact Nat.lt_succ_of_le (Nat.sub_le _ _)

/-- BatchEmailExtractor `extractEmailsBatch` for a configured batch size and
fetch oracle. -/
def extractEmailsBatch (siteEmails : String → Except Unit (List String))
    (configBatchSize : Nat) (businesses : List Business) : List Business :=
  chunkProcess (processBusiness siteEmails) (effectiveBatchSize configBatchSize - 1) businesses

/-! ### Concrete inputs used by the witness theorems -/

/-- A rendered listing link whose id resolves through the `!1s` data
parameter. -/
def witnessLink (pid : String) : Link :=
  { placeUrlCapture := none, dataParamCapture := some pid, pid19Capture := none,
    dataPid := none, parentDataPid := none, hexCapture := none,
    coordCapture := none, linkName := "", hasContainer := true,
    containerName := "Listing " ++ pid, ratingText := "4.6 stars",
    containerText := "Listing (1,636)", addressR := "1 Main St",
    businessTypeR := "Cafe", href := "https://maps.example/place/" ++ pid }

/-- A business record with an external website, used to exercise the email
batch. -/
def witnessBusiness : Business :=
  { name := "A", placeId := "p1", latitude := none, longitude := none,
    rating := none, reviews := 0, address := "", businessType := "",
    phone := "", url := "", website := "http://a.example",
    email := none, emails := [] }

/-! ## Theorems

Helper lemmas first, then one theorem per claim (with its witness or
counterexample where required). -/

/-! ### Helper lemmas on lists and matchers -/

theorem isPrefixOf_pre {p l : List Char} (h : p.isPrefixOf l = true) : p <+: l :=
  List.isPrefixOf_iff_prefix.mp h

theorem takeWhile_pre (p : Char → Bool) (l : List Char) : l.takeWhile p <+: l :=
  List.takeWhile_prefix p

theorem takeWhile_append_single {q : Char → Bool} (df : List Char) (x : Char)
    (hall : ∀ c ∈ df, q c = true) (hx : q x = false) :
    (df ++ [x]).takeWhile q = df := by
  induction df with
  | nil => simp [List.takeWhile_cons, hx]
  | cons a t ih =>
    have ha : q a = true := hall a (List.mem_cons_self a t)
    simp only [List.cons_append, List.takeWhile_cons, ha, if_true]
    rw [ih (fun c hc => hall c (List.mem_cons_of_mem a hc))]

theorem split_of_drop_takeWhile {p : Char → Bool} {r3 : List Char} {x : Char}
    (hd : r3.drop (r3.takeWhile p).length = [x]) :
    r3 = r3.takeWhile p ++ [x] := by
  set w := r3.takeWhile p with hw
  obtain ⟨t, ht⟩ := takeWhile_pre p r3
  rw [← hw] at ht
  rw [← ht, List.drop_left] at hd
  rw [← ht, hd]

theorem parenDigitsTail_mono {r3 : List Char} (h : parenDigitsTail false r3 = true) :
    parenDigitsTail true r3 = true := by
  unfold parenDigitsTail at h ⊢
  simp only [Bool.and_eq_true, Bool.not_eq_true', decide_eq_true_eq] at h ⊢
  obtain ⟨hne, hdrop⟩ := h
  have hsplit : r3 = r3.takeWhile (fun c => c.isDigit || (false && c = ',')) ++ [')'] :=
    split_of_drop_takeWhile hdrop
  have heq : r3.takeWhile (fun c => c.isDigit || (true && c = ',')) =
      r3.takeWhile (fun c => c.isDigit || (false && c = ',')) := by
    conv_lhs => rw [hsplit]
    apply takeWhile_append_single
    · intro c hc
      have := List.mem_takeWhile_imp hc
      simp only [Bool.false_and, Bool.or_false] at this
      simp [this]
    · decide
  rw [heq]
  exact ⟨hne, hdrop⟩

theorem matchDigitsParen_mono {cs : List Char} (h : matchDigitsParen false cs = true) :
    matchDigitsParen true cs = true := by
  unfold matchDigitsParen at h ⊢
  simp only [Bool.and_eq_true] at h ⊢
  exact ⟨h.1, parenDigitsTail_mono h.2⟩

theorem prefix_takeWhile_of_no_query {p l : List Char} (h : p <+: l)
    (hp : ∀ c ∈ p, c ≠ '?') : p <+: l.takeWhile (fun c => c ≠ '?') := by
  induction p generalizing l with
  | nil => exact List.nil_prefix
  | cons a p' ih =>
    cases l with
    | nil => exact absurd (List.IsPrefix.length_le h) (by simp)
    | cons b l' =>
      obtain ⟨hab, htail⟩ := List.cons_prefix_cons.mp h
      subst hab
      have ha : a ≠ '?' := hp a (List.mem_cons_self a p')
      rw [List.takeWhile_cons, if_pos (by simpa using ha)]
      exact List.cons_prefix_cons.mpr
        ⟨rfl, ih htail (fun c hc => hp c (List.mem_cons_of_mem a hc))⟩

theorem toList_mk (l : List Char) : (String.mk l).toList = l := rfl

/-! ### Claim C3: rating-shaped text and address cleaning -/

/-- Claim C3, counterexample: the rating-shaped string `4.6 (1636)` matches
`^[\d.]+\s*\(\d+\)$`, yet the exported `normalizeAddress` alias (which is
`validateAddress`) returns it unchanged instead of the empty string, so the
claim fails for that exported address-cleaning function. -/
theorem normalizeAddress_retains_rating_shape :
    specRatingShaped "4.6 (1636)" = true ∧
    normalizeAddress "4.6 (1636)" = "4.6 (1636)" := by
  constructor
  · decide
  · decide

/-- Claim C3, amended: for every input string matching `^[\d.]+\s*\(\d+\)$`,
the `cleanAddress` export returns the empty string; the guarantee does not
extend to the `normalizeAddress` alias. -/
theorem cleanAddress_empties_rating_shape (s : String)
    (h : specRatingShaped s = true) : cleanAddress s = "" := by
  have h' : matchDigitsParen false s.toList = true := h
  have hne : s ≠ "" := by
    intro he
    subst he
    exact absurd h (by decide)
  have hm : matchDigitsParen true s.data = true := matchDigitsParen_mono h'
  simp [cleanAddress, hne, hm]

/-- Claim C3, witness: the amended theorem applied at `4.6 (1636)`. -/
theorem cleanAddress_empties_rating_shape_witness :
    cleanAddress "4.6 (1636)" = "" :=
  cleanAddress_empties_rating_shape "4.6 (1636)" (by decide)

/-! ### Claim C4: email filtering -/

/-- Claim C4: `filterValidEmails` keeps exactly the syntactically valid,
non-blacklisted emails of its input (so no valid, non-blacklisted email is
dropped, and every blacklisted or invalid string is removed), preserving
input order. -/
theorem filterValidEmails_membership (emails : List String) (e : String) :
    (e ∈ filterValidEmails emails ↔
      e ∈ emails ∧ isBlacklistedEmail e = false ∧ emailRegexTest e = true) ∧
    (filterValidEmails emails).Sublist emails := by
  constructor
  · simp [filterValidEmails, List.mem_filter, Bool.and_eq_true, Bool.not_eq_true',
      and_assoc]
  · exact List.filter_sublist _

/-! ### Claim C9: normalizeReviewCount -/

/-- Claim C9, counterexample: `normalizeReviewCount` parses a leading minus
sign, so the result is not always non-negative. -/
theorem normalizeReviewCount_negative_on_minus_input :
    normalizeReviewCount "-5" = -5 ∧ normalizeReviewCount "-5" < 0 := by
  constructor
  · decide
  · decide

theorem parseIntSigned_nonneg {l : List Char} (h : '-' ∉ l) {n : ℤ}
    (hp : parseIntSigned l = some n) : 0 ≤ n := by
  cases l with
  | nil => simp [parseIntSigned] at hp
  | cons c r =>
    simp only [parseIntSigned] at hp
    by_cases hc : c = '-'
    · exact absurd (hc ▸ List.mem_cons_self c r) h
    · rw [if_neg hc] at hp
      by_cases hc2 : c = '+'
      · rw [if_pos hc2] at hp
        cases hd : parseDigits r with
        | none => rw [hd] at hp; simp at hp
        | some m =>
          rw [hd] at hp
          simp only [Option.map_some'] at hp
          have hmn := Option.some.inj hp
          rw [← hmn]
          exact Int.ofNat_nonneg m
      · rw [if_neg hc2] at hp
        cases hd : parseDigits (c :: r) with
        | none => rw [hd] at hp; simp at hp
        | some m =>
          rw [hd] at hp
          simp only [Option.map_some'] at hp
          have hmn := Option.some.inj hp
          rw [← hmn]
          exact Int.ofNat_nonneg m

theorem parseIntJs_nonneg {s : String} (h : '-' ∉ s.toList) {n : ℤ}
    (hp : parseIntJs s = some n) : 0 ≤ n :=
  parseIntSigned_nonneg
    (fun hm => h ((List.dropWhile_sublist _).subset hm)) hp

/-- Claim C9, amended: `normalizeReviewCount` strips comma and parenthesis
formatting, parses the remaining integer (0 when unparsable), and the result
is non-negative for every input that contains no minus sign (a leading minus
sign is parsed and produces a negative count). -/
theorem nonneg_of_match_parse (o : Option ℤ) (ho : ∀ n, o = some n → 0 ≤ n) :
    0 ≤ (match o with
         | none => (0 : ℤ)
         | some n => n) := by
  cases o with
  | none => exact le_refl 0
  | some n => exact ho n rfl

theorem normalizeReviewCount_nonneg_without_minus (s : String)
    (h : '-' ∉ s.toList) : 0 ≤ normalizeReviewCount s := by
  by_cases hs : s = ""
  · subst hs
    decide
  · have hminus :
        '-' ∉ (⟨s.toList.filter reviewCountKeep⟩ : String).toList := by
      intro hm
      rw [toList_mk] at hm
      exact h (List.mem_of_mem_filter hm)
    unfold normalizeReviewCount
    rw [if_neg hs]
    exact nonneg_of_match_parse _ (fun n hp => parseIntJs_nonneg hminus hp)

/-- Claim C9, witness: the amended theorem applied at `1,234`. -/
theorem normalizeReviewCount_nonneg_without_minus_witness :
    0 ≤ normalizeReviewCount "1,234" :=
  normalizeReviewCount_nonneg_without_minus "1,234" (by decide)

/-! ### Claim C10: cleanWebsiteUrl -/

theorem cleanWebsiteUrlCore_scheme (t : List Char) :
    "http://".toList <+: cleanWebsiteUrlCore t ∨
    "https://".toList <+: cleanWebsiteUrlCore t := by
  unfold cleanWebsiteUrlCore
  by_cases h1 : hasHttpScheme t = true
  · rw [if_pos h1]
    unfold hasHttpScheme at h1
    rcases Bool.or_eq_true_iff.mp h1 with h | h
    · exact Or.inl (isPrefixOf_pre h)
    · exact Or.inr (isPrefixOf_pre h)
  · rw [if_neg h1]
    refine Or.inr ?_
    split_ifs
    · exact List.IsPrefix.trans
        (isPrefixOf_pre (by decide)) (List.prefix_append _ _)
    · exact List.prefix_append _ _
    · exact List.prefix_append _ _

theorem dropQuery_no_query (c1 : List Char) : '?' ∉ dropQuery c1 := by
  unfold dropQuery
  split
  · intro hm
    have := List.mem_takeWhile_imp hm
    simp at this
  · assumption

theorem dropQuery_keeps_lead {p c1 : List Char} (hp : p <+: c1)
    (hq : ∀ c ∈ p, c ≠ '?') : p <+: dropQuery c1 := by
  unfold dropQuery
  split
  · exact prefix_takeWhile_of_no_query hp hq
  · exact hp

/-- Claim C10: for every non-empty input, `cleanWebsiteUrl` returns a string
that begins with `http://` or `https://` and contains no `?` character. -/
theorem cleanWebsiteUrl_scheme_and_no_query (url : String) (h : url ≠ "") :
    ("http://".toList <+: (cleanWebsiteUrl url).toList ∨
      "https://".toList <+: (cleanWebsiteUrl url).toList) ∧
    '?' ∉ (cleanWebsiteUrl url).toList := by
  unfold cleanWebsiteUrl
  rw [if_neg h]
  constructor
  · rcases cleanWebsiteUrlCore_scheme (listTrim url.toList) with hs | hs
    · left
      rw [toList_mk]
      exact dropQuery_keeps_lead hs (by decide)
    · right
      rw [toList_mk]
      exact dropQuery_keeps_lead hs (by decide)
  · rw [toList_mk]
    exact dropQuery_no_query _

/-- Claim C10, witness: the theorem applied at `example.org?q=1`. -/
theorem cleanWebsiteUrl_scheme_and_no_query_witness :
    ("http://".toList <+: (cleanWebsiteUrl "example.org?q=1").toList ∨
      "https://".toList <+: (cleanWebsiteUrl "example.org?q=1").toList) ∧
    '?' ∉ (cleanWebsiteUrl "example.org?q=1").toList :=
  cleanWebsiteUrl_scheme_and_no_query "example.org?q=1" (by decide)


/-! ### Claim C6: normalizeRating -/

theorem jsRound_intCast (k : ℤ) : jsRound (k : ℚ) = k := by
  unfold jsRound
  rw [Int.floor_int_add]
  norm_num

theorem normalizeRating_some_bounds (q : ℚ) :
    0 ≤ normalizeRating (some q) ∧ normalizeRating (some q) ≤ 5 := by
  unfold normalizeRating jsRound
  have h0 : 0 ≤ max 0 (min 5 q) := le_max_left 0 _
  have h5 : max 0 (min 5 q) ≤ 5 := max_le (by norm_num) (min_le_left 5 q)
  have hk0 : (0 : ℤ) ≤ ⌊max 0 (min 5 q) * 10 + 1 / 2⌋ := by
    apply Int.le_floor.mpr
    push_cast
    nlinarith
  have hk50 : ⌊max 0 (min 5 q) * 10 + 1 / 2⌋ ≤ 50 := by
    apply Int.lt_add_one_iff.mp
    apply Int.floor_lt.mpr
    push_cast
    nlinarith
  constructor
  · apply div_nonneg _ (by norm_num)
    exact_mod_cast hk0
  · rw [div_le_iff₀ (by norm_num)]
    calc ((⌊max 0 (min 5 q) * 10 + 1 / 2⌋ : ℤ) : ℚ) ≤ 50 := by exact_mod_cast hk50
      _ = 5 * 10 := by norm_num

theorem normalizeRating_idem (q : ℚ) :
    normalizeRating (some (normalizeRating (some q))) = normalizeRating (some q) := by
  obtain ⟨hr0, hr5⟩ := normalizeRating_some_bounds q
  have hrk : normalizeRating (some q) =
      ((jsRound (max 0 (min 5 q) * 10) : ℤ) : ℚ) / 10 := rfl
  show (jsRound (max 0 (min 5 (normalizeRating (some q))) * 10) : ℚ) / 10 =
    normalizeRating (some q)
  rw [min_eq_right hr5, max_eq_right hr0]
  have hmul : normalizeRating (some q) * 10 = ((jsRound (max 0 (min 5 q) * 10) : ℤ) : ℚ) := by
    rw [hrk]
    exact div_mul_cancel₀ _ (by norm_num)
  rw [hmul, jsRound_intCast, ← hrk]

/-- Claim C6: `normalizeRating` is idempotent and range-bound: re-normalizing
its output is the identity, the result always lies in `[0, 5]`, and an
absent or unparsable input yields 0. -/
theorem normalizeRating_idempotent_bounded (x : Option ℚ) :
    normalizeRating (some (normalizeRating x)) = normalizeRating x ∧
    0 ≤ normalizeRating x ∧ normalizeRating x ≤ 5 ∧ normalizeRating none = 0 := by
  cases x with
  | none =>
    refine ⟨?_, le_refl 0, ?_, rfl⟩
    · show normalizeRating (some 0) = 0
      unfold normalizeRating jsRound
      norm_num
    · show (0 : ℚ) ≤ 5
      norm_num
  | some q =>
    obtain ⟨h0, h5⟩ := normalizeRating_some_bounds q
    exact ⟨normalizeRating_idem q, h0, h5, rfl⟩

/-! ### Claim C5: retryWithBackoff delays -/

theorem backoffDelay_cap (i : Nat) : backoffDelay i ≤ 10000 := min_le_right _ _

theorem backoffDelay_mono (i : Nat) : backoffDelay i ≤ backoffDelay (i + 1) := by
  unfold backoffDelay
  exact min_le_min
    (Nat.mul_le_mul_left _ (Nat.pow_le_pow_right (by norm_num) (Nat.le_succ i)))
    (le_refl _)

theorem retryDelaysAux_getElem {fails : Nat → Bool} :
    ∀ (fuel i j d : Nat), (retryDelaysAux fails i fuel)[j]? = some d →
      d = backoffDelay (i + j) := by
  intro fuel
  induction fuel with
  | zero => intro i j d h; simp [retryDelaysAux] at h
  | succ fuel ih =>
    intro i j d h
    simp only [retryDelaysAux] at h
    by_cases hf : fails i = true
    · rw [if_pos hf] at h
      by_cases h0 : fuel = 0
      · rw [if_pos h0] at h; simp at h
      · rw [if_neg h0] at h
        cases j with
        | zero =>
          rw [List.getElem?_cons_zero] at h
          have hd := Option.some.inj h
          rw [← hd, Nat.add_zero]
        | succ j =>
          rw [List.getElem?_cons_succ] at h
          have := ih (i + 1) j d h
          rw [this]
          congr 1
          omega
    · rw [if_neg hf] at h; simp at h

theorem retryDelaysAux_head {fails : Nat → Bool} :
    ∀ (fuel i : Nat) {d : Nat}, (retryDelaysAux fails i fuel).head? = some d →
      d = backoffDelay i := by
  intro fuel i d h
  cases fuel with
  | zero => simp [retryDelaysAux] at h
  | succ fuel =>
    simp only [retryDelaysAux] at h
    by_cases hf : fails i = true
    · rw [if_pos hf] at h
      by_cases h0 : fuel = 0
      · rw [if_pos h0] at h; simp at h
      · rw [if_neg h0] at h
        simp only [List.head?_cons] at h
        exact (Option.some.inj h).symm
    · rw [if_neg hf] at h; simp at h

theorem retryDelaysAux_chain {fails : Nat → Bool} :
    ∀ fuel i, List.Chain' (· ≤ ·) (retryDelaysAux fails i fuel) := by
  intro fuel
  induction fuel with
  | zero => intro i; simp [retryDelaysAux]
  | succ fuel ih =>
    intro i
    simp only [retryDelaysAux]
    by_cases hf : fails i = true
    · rw [if_pos hf]
      by_cases h0 : fuel = 0
      · rw [if_pos h0]; simp
      · rw [if_neg h0]
        apply List.chain'_cons'.mpr
        refine ⟨?_, ih (i + 1)⟩
        intro y hy
        have hy2 : (retryDelaysAux fails (i + 1) fuel).head? = some y := hy
        rw [retryDelaysAux_head fuel (i + 1) hy2]
        exact backoffDelay_mono i
    · rw [if_neg hf]; simp

theorem retryDelaysAux_cap {fails : Nat → Bool} :
    ∀ fuel i, ∀ d ∈ retryDelaysAux fails i fuel, d ≤ 10000 := by
  intro fuel
  induction fuel with
  | zero => intro i d hd; simp [retryDelaysAux] at hd
  | succ fuel ih =>
    intro i d hd
    simp only [retryDelaysAux] at hd
    by_cases hf : fails i = true
    · rw [if_pos hf] at hd
      by_cases h0 : fuel = 0
      · rw [if_pos h0] at hd; simp at hd
      · rw [if_neg h0] at hd
        rcases List.mem_cons.mp hd with hd | hd
        · rw [hd]; exact backoffDelay_cap i
        · exact ih (i + 1) d hd
    · rw [if_neg hf] at hd; simp at hd

/-- Claim C5: the delay slept before retry `j` of `retryWithBackoff` equals
`min(1000 * 2^j, 10000)`, and the delay trace of every run is non-decreasing
and capped by 10000 ms. -/
theorem retryWithBackoff_delay_formula (fails : Nat → Bool) (retries : Nat) :
    (∀ j d, (retryDelays fails retries)[j]? = some d →
      d = min (1000 * 2 ^ j) 10000) ∧
    List.Chain' (· ≤ ·) (retryDelays fails retries) ∧
    (∀ d ∈ retryDelays fails retries, d ≤ 10000) := by
  refine ⟨?_, retryDelaysAux_chain retries 0, fun d hd => retryDelaysAux_cap retries 0 d hd⟩
  intro j d h
  have := retryDelaysAux_getElem retries 0 j d h
  rw [this]
  unfold backoffDelay
  rw [Nat.zero_add]

/-- Claim C5, witness: for an always-failing operation with 3 attempts, the
delay slept before the second retry is `min(1000 * 2, 10000) = 2000`. -/
theorem retryWithBackoff_delay_formula_witness :
    (retryDelays (fun _ => true) 3)[1]? = some 2000 ∧
    2000 = min (1000 * 2 ^ 1) 10000 ∧ 2000 ≤ 10000 :=
  ⟨by decide,
    (retryWithBackoff_delay_formula (fun _ => true) 3).1 1 2000 (by decide),
    (retryWithBackoff_delay_formula (fun _ => true) 3).2.2 2000 (by decide)⟩

/-! ### Claim C7: performScrolling termination -/

theorem scrollAux_le (counts : Nat → Nat) :
    ∀ fuel i prev nc, scrollAux counts fuel i prev nc ≤ i + fuel := by
  intro fuel
  induction fuel with
  | zero => intro i prev nc; simp [scrollAux]
  | succ fuel ih =>
    intro i prev nc
    simp only [scrollAux]
    by_cases hc : counts i = prev
    · rw [if_pos hc]
      by_cases h8 : 8 ≤ nc + 1
      · rw [if_pos h8]; omega
      · rw [if_neg h8]
        by_cases h200 : 200 ≤ counts i
        · rw [if_pos h200]; omega
        · rw [if_neg h200]
          exact le_trans (ih (i + 1) (counts i) (nc + 1)) (by omega)
    · rw [if_neg hc]
      by_cases h200 : 200 ≤ counts i
      · rw [if_pos h200]; omega
      · rw [if_neg h200]
        exact le_trans (ih (i + 1) (counts i) 0) (by omega)

theorem scrollAux_lt200 (counts : Nat → Nat) :
    ∀ fuel i prev nc j, i ≤ j → j + 1 < scrollAux counts fuel i prev nc →
      counts j < 200 := by
  intro fuel
  induction fuel with
  | zero => intro i prev nc j hij h; simp [scrollAux] at h; omega
  | succ fuel ih =>
    intro i prev nc j hij h
    simp only [scrollAux] at h
    by_cases hc : counts i = prev
    · rw [if_pos hc] at h
      by_cases h8 : 8 ≤ nc + 1
      · rw [if_pos h8] at h; omega
      · rw [if_neg h8] at h
        by_cases h200 : 200 ≤ counts i
        · rw [if_pos h200] at h; omega
        · rw [if_neg h200] at h
          rcases Nat.lt_or_ge i j with hij2 | hij2
          · exact ih (i + 1) (counts i) (nc + 1) j hij2 h
          · have hji : j = i := le_antisymm hij2 hij
            rw [hji]
            omega
    · rw [if_neg hc] at h
      by_cases h200 : 200 ≤ counts i
      · rw [if_pos h200] at h; omega
      · rw [if_neg h200] at h
        rcases Nat.lt_or_ge i j with hij2 | hij2
        · exact ih (i + 1) (counts i) 0 j hij2 h
        · have hji : j = i := le_antisymm hij2 hij
          rw [hji]
          omega

theorem scrollAux_stall (counts : Nat → Nat) :
    ∀ fuel i prev nc, nc ≤ 7 →
      (∀ j, i ≤ j → j < i + (8 - nc) → counts j = prev) →
      scrollAux counts fuel i prev nc ≤ i + (8 - nc) := by
  intro fuel
  induction fuel with
  | zero => intro i prev nc h7 hcst; simp [scrollAux]
  | succ fuel ih =>
    intro i prev nc h7 hcst
    have hci : counts i = prev := hcst i (le_refl i) (by omega)
    simp only [scrollAux]
    rw [if_pos hci]
    by_cases h8 : 8 ≤ nc + 1
    · rw [if_pos h8]; omega
    · rw [if_neg h8]
      by_cases h200 : 200 ≤ counts i
      · rw [if_pos h200]; omega
      · rw [if_neg h200]
        have hrec : ∀ j, i + 1 ≤ j → j < (i + 1) + (8 - (nc + 1)) → counts j = counts i := by
          intro j hj1 hj2
          rw [hci]
          exact hcst j (by omega) (by omega)
        exact le_trans (ih (i + 1) (counts i) (nc + 1) (by omega) hrec) (by omega)

theorem scrollAux_future (counts : Nat → Nat) :
    ∀ fuel i prev nc m, 1 ≤ m → i ≤ m →
      (i = 0 → prev = 0) → (∀ i0, i = i0 + 1 → prev = counts i0) → nc ≤ 7 →
      (∀ j, m ≤ j → j < m + 8 → counts j = counts (m - 1)) →
      scrollAux counts fuel i prev nc ≤ m + 8 := by
  intro fuel
  induction fuel with
  | zero => intro i prev nc m h1 him _ _ _ _; simp [scrollAux]; omega
  | succ fuel ih =>
    intro i prev nc m h1 him hprev0 hprevS h7 hm
    rcases Nat.lt_or_ge i m with hlt | hge
    · simp only [scrollAux]
      by_cases hc : counts i = prev
      · rw [if_pos hc]
        by_cases h8 : 8 ≤ nc + 1
        · rw [if_pos h8]; omega
        · rw [if_neg h8]
          by_cases h200 : 200 ≤ counts i
          · rw [if_pos h200]; omega
          · rw [if_neg h200]
            refine ih (i + 1) (counts i) (nc + 1) m h1 hlt ?_ ?_ (by omega) hm
            · intro hcontra; omega
            · intro i0 hi0
              have hi0i : i0 = i := by omega
              rw [hi0i]
      · rw [if_neg hc]
        by_cases h200 : 200 ≤ counts i
        · rw [if_pos h200]; omega
        · rw [if_neg h200]
          refine ih (i + 1) (counts i) 0 m h1 hlt ?_ ?_ (by omega) hm
          · intro hcontra; omega
          · intro i0 hi0
            have hi0i : i0 = i := by omega
            rw [hi0i]
    · have him2 : i = m := le_antisymm him hge
      subst him2
      have hprev : prev = counts (i - 1) := hprevS (i - 1) (by omega)
      have hstall := scrollAux_stall counts (fuel + 1) i prev nc h7 ?_
      · exact le_trans hstall (by omega)
      · intro j hj1 hj2
        rw [hm j hj1 (by omega), hprev]

/-- Claim C7, counterexample: on a run whose rendered-listing count strictly
decreases at every iteration (so the count never increases after iteration 0
and never reaches 200), the loop executes all `maxScrolls = 20` iterations
instead of exiting early after 8 consecutive non-increasing iterations: the
stall counter of the source counts only unchanged observations and is reset
by any change, including a decrease. -/
theorem performScrolling_not_nonincrease_exit :
    scrollIterations (fun i => 100 - i) 20 = 20 ∧
    (∀ j, j < 9 → 1 ≤ j → (100 - j : Nat) < 100 - (j - 1)) ∧
    (∀ j, j < 20 → (100 - j : Nat) < 200) := by
  refine ⟨by decide, by decide, by decide⟩

/-- Claim C7, amended: the scroll loop always terminates within `maxScrolls`
iterations; every non-final executed iteration observed a count below 200
(so the loop exits as soon as the count reaches 200); and it exits early
after 8 consecutive iterations in which the count is unchanged from the
previous observation (the stall counter is reset whenever the count changes,
not merely when it increases). -/
theorem performScrolling_termination (counts : Nat → Nat) (maxScrolls : Nat) :
    scrollIterations counts maxScrolls ≤ maxScrolls ∧
    (∀ j, j + 1 < scrollIterations counts maxScrolls → counts j < 200) ∧
    (∀ m, 1 ≤ m → (∀ j, m ≤ j → j < m + 8 → counts j = counts (m - 1)) →
      scrollIterations counts maxScrolls ≤ m + 8) := by
  refine ⟨?_, ?_, ?_⟩
  · have := scrollAux_le counts maxScrolls 0 0 0
    simpa using this
  · intro j hj
    exact scrollAux_lt200 counts maxScrolls 0 0 0 j (Nat.zero_le j) hj
  · intro m h1 hm
    exact scrollAux_future counts maxScrolls 0 0 0 m h1 (Nat.zero_le m)
      (fun _ => rfl) (fun i0 hi0 => absurd hi0 (by omega)) (by omega) hm

/-- Claim C7, witness: a run with a constant count of 7 and `maxScrolls = 50`
stalls from iteration 1 on, so the amended theorem bounds it by 9
iterations. -/
theorem performScrolling_termination_witness :
    scrollIterations (fun _ => 7) 50 ≤ 9 :=
  (performScrolling_termination (fun _ => 7) 50).2.2 1 (le_refl 1)
    (fun _ _ _ => rfl)

/-! ### Claim C1: dedup invariant of extraction and multi-query merge -/

theorem extractAux_invariant (now : Nat) :
    ∀ (links : List Link) (idx : Nat) (seen : List String),
      (extractAux now links idx seen).Pairwise (fun a b => a.placeId ≠ b.placeId) ∧
      ∀ b ∈ extractAux now links idx seen, b.placeId ∉ seen := by
  intro links
  induction links with
  | nil => intro idx seen; simp [extractAux]
  | cons l rest ih =>
    intro idx seen
    simp only [extractAux]
    by_cases hs : stripQuery (resolvePlaceId now idx l) ∈ seen
    · rw [if_pos hs]
      exact ih (idx + 1) seen
    · rw [if_neg hs]
      by_cases hc : (!l.hasContainer) = true
      · rw [if_pos hc]
        obtain ⟨hp, hm⟩ := ih (idx + 1) (stripQuery (resolvePlaceId now idx l) :: seen)
        exact ⟨hp, fun b hb hbs => hm b hb (List.mem_cons_of_mem _ hbs)⟩
      · rw [if_neg hc]
        by_cases hn : l.containerName = ""
        · rw [if_pos hn]
          obtain ⟨hp, hm⟩ := ih (idx + 1) (stripQuery (resolvePlaceId now idx l) :: seen)
          exact ⟨hp, fun b hb hbs => hm b hb (List.mem_cons_of_mem _ hbs)⟩
        · rw [if_neg hn]
          obtain ⟨hp, hm⟩ := ih (idx + 1) (stripQuery (resolvePlaceId now idx l) :: seen)
          constructor
          · apply List.Pairwise.cons
            · intro b hb
              have hnb := hm b hb
              show (linkBusiness l (stripQuery (resolvePlaceId now idx l))).placeId ≠ b.placeId
              simp only [linkBusiness]
              intro heq
              exact hnb (heq ▸ List.mem_cons_self _ _)
            · exact hp
          · intro b hb
            rcases List.mem_cons.mp hb with hb | hb
            · rw [hb]
              simp only [linkBusiness]
              exact hs
            · intro hbs
              exact hm b hb (List.mem_cons_of_mem _ hbs)

theorem mergeDedup_invariant :
    ∀ (rs : List Business) (seen : List String) (acc : List Business),
      (∀ a ∈ acc, a.placeId ∈ seen) →
      acc.Pairwise (fun a b => a.placeId ≠ b.placeId) →
      ((∀ a ∈ (mergeDedup rs seen acc).2, a.placeId ∈ (mergeDedup rs seen acc).1) ∧
       (mergeDedup rs seen acc).2.Pairwise (fun a b => a.placeId ≠ b.placeId) ∧
       (∀ a ∈ (mergeDedup rs seen acc).2, a ∈ acc ∨ a ∈ rs)) := by
  intro rs
  induction rs with
  | nil => intro seen acc hacc hp; exact ⟨hacc, hp, fun a ha => Or.inl ha⟩
  | cons b bs ih =>
    intro seen acc hacc hp
    simp only [mergeDedup]
    by_cases hb : b.placeId ∈ seen
    · rw [if_pos hb]
      obtain ⟨h1, h2, h3⟩ := ih seen acc hacc hp
      exact ⟨h1, h2, fun a ha => (h3 a ha).imp id (List.mem_cons_of_mem b)⟩
    · rw [if_neg hb]
      have hacc2 : ∀ a ∈ acc ++ [b], a.placeId ∈ b.placeId :: seen := by
        intro a ha
        rcases List.mem_append.mp ha with ha | ha
        · exact List.mem_cons_of_mem _ (hacc a ha)
        · rw [List.mem_singleton.mp ha]
          exact List.mem_cons_self _ _
      have hp2 : (acc ++ [b]).Pairwise (fun a c => a.placeId ≠ c.placeId) := by
        apply List.pairwise_append.mpr
        refine ⟨hp, List.pairwise_singleton _ _, ?_⟩
        intro a ha c hc
        rw [List.mem_singleton.mp hc]
        intro heq
        exact hb (heq ▸ hacc a ha)
      obtain ⟨h1, h2, h3⟩ := ih (b.placeId :: seen) (acc ++ [b]) hacc2 hp2
      refine ⟨h1, h2, fun a ha => ?_⟩
      rcases h3 a ha with ha2 | ha2
      · rcases List.mem_append.mp ha2 with ha3 | ha3
        · exact Or.inl ha3
        · exact Or.inr (List.mem_singleton.mp ha3 ▸ List.mem_cons_self b bs)
      · exact Or.inr (List.mem_cons_of_mem b ha2)

theorem smqAux_invariant (mr : Nat) :
    ∀ (rss : List (List Business)) (seen : List String) (acc : List Business),
      (∀ a ∈ acc, a.placeId ∈ seen) →
      acc.Pairwise (fun a b => a.placeId ≠ b.placeId) →
      ((smqAux mr rss seen acc).Pairwise (fun a b => a.placeId ≠ b.placeId) ∧
       ∀ a ∈ smqAux mr rss seen acc, a ∈ acc ∨ ∃ rs ∈ rss, a ∈ rs) := by
  intro rss
  induction rss with
  | nil => intro seen acc hacc hp; exact ⟨hp, fun a ha => Or.inl ha⟩
  | cons rs rest ih =>
    intro seen acc hacc hp
    simp only [smqAux]
    obtain ⟨h1, h2, h3⟩ := mergeDedup_invariant rs seen acc hacc hp
    by_cases hlen : mr ≤ (mergeDedup rs seen acc).2.length
    · rw [if_pos hlen]
      exact ⟨h2, fun a ha =>
        (h3 a ha).imp id (fun hrs => ⟨rs, List.mem_cons_self _ _, hrs⟩)⟩
    · rw [if_neg hlen]
      obtain ⟨g1, g2⟩ := ih (mergeDedup rs seen acc).1 (mergeDedup rs seen acc).2 h1 h2
      refine ⟨g1, fun a ha => ?_⟩
      rcases g2 a ha with ha2 | ⟨rs2, hrs2, ha3⟩
      · exact (h3 a ha2).imp id (fun hrs => ⟨rs, List.mem_cons_self _ _, hrs⟩)
      · exact Or.inr ⟨rs2, List.mem_cons_of_mem rs hrs2, ha3⟩

/-- Claim C1: the place ids of the records returned by `extractBusinesses`
are pairwise distinct (a record whose id was already seen in the run is
dropped, not emitted), and the merged output of `searchMultipleQueries` over
any sequence of sub-search results also has pairwise distinct place ids,
every merged record coming from one of the sub-searches. -/
theorem extraction_dedup_invariant (now maxResults : Nat) (links : List Link)
    (mr : Nat) (subResults : List (List Business)) :
    (extractBusinesses now maxResults links).Pairwise
      (fun a b => a.placeId ≠ b.placeId) ∧
    (searchMultipleQueries mr subResults).Pairwise
      (fun a b => a.placeId ≠ b.placeId) ∧
    (∀ b ∈ searchMultipleQueries mr subResults, ∃ rs ∈ subResults, b ∈ rs) := by
  refine ⟨?_, ?_, ?_⟩
  · exact List.Pairwise.sublist (List.take_sublist _ _)
      (extractAux_invariant now links 0 []).1
  · exact List.Pairwise.sublist (List.take_sublist _ _)
      (smqAux_invariant mr subResults [] [] (by simp) List.Pairwise.nil).1
  · intro b hb
    have hb2 : b ∈ smqAux mr subResults [] [] := (List.take_sublist _ _).subset hb
    rcases (smqAux_invariant mr subResults [] [] (by simp) List.Pairwise.nil).2 b hb2
      with h | h
    · simp at h
    · exact h

/-- Claim C1, witness: the theorem applied to a run with a duplicated link
and to a multi-query merge with a duplicated sub-result. -/
theorem extraction_dedup_invariant_witness :
    (extractBusinesses 0 5 [witnessLink "ChIa", witnessLink "ChIa"]).Pairwise
      (fun a b => a.placeId ≠ b.placeId) ∧
    (searchMultipleQueries 10 [[witnessBusiness], [witnessBusiness]]).Pairwise
      (fun a b => a.placeId ≠ b.placeId) :=
  ⟨(extraction_dedup_invariant 0 5 [witnessLink "ChIa", witnessLink "ChIa"] 10
      [[witnessBusiness], [witnessBusiness]]).1,
   (extraction_dedup_invariant 0 5 [witnessLink "ChIa", witnessLink "ChIa"] 10
      [[witnessBusiness], [witnessBusiness]]).2.1⟩

/-! ### Claim C2: the result cap is applied only after extraction and dedup -/

/-- Claim C2: the output of `extractBusinesses` never exceeds `maxResults`
records; it is exactly the first `maxResults` records of the full
deduplicated extraction pass `extractBusinessesRaw` (which is independent of
the cap, so truncation happens only after the full scan); hence with a
smaller cap the run returns exactly the first records of a run with a larger
cap. -/
theorem extractBusinesses_cap (now N M : Nat) (links : List Link) (h : N ≤ M) :
    (extractBusinesses now N links).length ≤ N ∧
    extractBusinesses now N links = (extractBusinessesRaw now links).take N ∧
    extractBusinesses now N links = (extractBusinesses now M links).take N := by
  refine ⟨?_, rfl, ?_⟩
  · unfold extractBusinesses
    calc (List.take N (extractBusinessesRaw now links)).length
        = min N (extractBusinessesRaw now links).length := List.length_take _ _
      _ ≤ N := min_le_left _ _
  · unfold extractBusinesses
    rw [List.take_take, min_eq_left h]

/-- Claim C2, witness: the theorem applied to a three-link run with caps 2
and 5. -/
theorem extractBusinesses_cap_witness :
    (extractBusinesses 0 2 [witnessLink "ChIa", witnessLink "ChIb",
        witnessLink "ChIc"]).length ≤ 2 ∧
    extractBusinesses 0 2 [witnessLink "ChIa", witnessLink "ChIb", witnessLink "ChIc"] =
      (extractBusinesses 0 5 [witnessLink "ChIa", witnessLink "ChIb",
        witnessLink "ChIc"]).take 2 :=
  ⟨(extractBusinesses_cap 0 2 5 [witnessLink "ChIa", witnessLink "ChIb",
      witnessLink "ChIc"] (by decide)).1,
   (extractBusinesses_cap 0 2 5 [witnessLink "ChIa", witnessLink "ChIb",
      witnessLink "ChIc"] (by decide)).2.2⟩

/-! ### Claim C8: per-business isolation of the email batch -/

theorem chunkProcess_eq_map (p : Business → Business) (bsPred : Nat) :
    ∀ (n : Nat) (l : List Business), l.length ≤ n → chunkProcess p bsPred l = l.map p := by
  intro n
  induction n with
  | zero =>
    intro l hl
    have hnil : l = [] := List.eq_nil_of_length_eq_zero (Nat.le_zero.mp hl)
    rw [hnil]
    simp [chunkProcess]
  | succ n ih =>
    intro l hl
    cases l with
    | nil => simp [chunkProcess]
    | cons b rest =>
      rw [chunkProcess]
      rw [ih ((b :: rest).drop (bsPred + 1)) (by
        simp only [List.drop_succ_cons, List.length_drop, List.length_cons] at hl ⊢
        omega)]
      rw [← List.map_append, List.take_append_drop]

/-- Claim C8: `extractEmailsBatch` returns exactly one record per input
business in input order (it equals the per-business map, whatever batch
size the configuration yields); the per-business transform leaves every
field except `email`/`emails` unchanged; and a business with no website, a
`google.com` platform website, or a throwing website fetch comes back with
`emails = []` and `email = null`, independently of the rest of the batch. -/
theorem extractEmailsBatch_per_business (siteEmails : String → Except Unit (List String))
    (configBatchSize : Nat) (businesses : List Business) :
    extractEmailsBatch siteEmails configBatchSize businesses =
      businesses.map (processBusiness siteEmails) ∧
    (extractEmailsBatch siteEmails configBatchSize businesses).length =
      businesses.length ∧
    (∀ b : Business,
      (processBusiness siteEmails b).name = b.name ∧
      (processBusiness siteEmails b).placeId = b.placeId ∧
      (processBusiness siteEmails b).latitude = b.latitude ∧
      (processBusiness siteEmails b).longitude = b.longitude ∧
      (processBusiness siteEmails b).rating = b.rating ∧
      (processBusiness siteEmails b).reviews = b.reviews ∧
      (processBusiness siteEmails b).address = b.address ∧
      (processBusiness siteEmails b).businessType = b.businessType ∧
      (processBusiness siteEmails b).phone = b.phone ∧
      (processBusiness siteEmails b).url = b.url ∧
      (processBusiness siteEmails b).website = b.website) ∧
    (∀ b : Business,
      (b.website = "" ∨ containsSub "google.com" b.website = true ∨
        siteEmails b.website = Except.error ()) →
      (processBusiness siteEmails b).emails = [] ∧
      (processBusiness siteEmails b).email = none) := by
  have hmap : extractEmailsBatch siteEmails configBatchSize businesses =
      businesses.map (processBusiness siteEmails) :=
    chunkProcess_eq_map _ _ businesses.length businesses (le_refl _)
  refine ⟨hmap, by rw [hmap, List.length_map], ?_, ?_⟩
  · intro b
    unfold processBusiness
    by_cases h1 : (b.website = "" || containsSub "google.com" b.website) = true
    · rw [if_pos h1]
      simp
    · rw [if_neg h1]
      cases hfw : extractFromWebsite siteEmails b.website with
      | ok es => simp
      | error e => simp
  · intro b hb
    unfold processBusiness
    by_cases h1 : (b.website = "" || containsSub "google.com" b.website) = true
    · rw [if_pos h1]
      exact ⟨rfl, rfl⟩
    · rw [if_neg h1]
      have herr : siteEmails b.website = Except.error () := by
        rcases hb with hb | hb | hb
        · simp [hb] at h1
        · simp [hb] at h1
        · exact hb
      unfold extractFromWebsite
      rw [herr]
      exact ⟨rfl, rfl⟩

/-- Claim C8, witness: a business whose website fetch throws is returned with
an empty email set. -/
theorem extractEmailsBatch_per_business_witness :
    (processBusiness (fun _ => Except.error ()) witnessBusiness).emails = [] ∧
    (processBusiness (fun _ => Except.error ()) witnessBusiness).email = none :=
  (extractEmailsBatch_per_business (fun _ => Except.error ()) 5 [witnessBusiness]).2.2.2
    witnessBusiness (Or.inr (Or.inr rfl))
